import Mathlib

/-!
Shallow embedding of the cloudify repository's dataset indexer
(`dataset.py`) and the cache interface used by `load_cached`.

The filesystem is modelled as an ordered tree of entries: the order of a
directory's `children` list models the order `os.listdir` returns, which
the source treats as opaque.  Scanned paths are resolved to `Option Entry`
(`none` when `os.path.exists` is false).  Python exceptions are modelled
with `Except String`.  The float values produced by
`np.eye(num_classes, dtype=float)` are only `0.0` and `1.0`, both exactly
representable, so rows are modelled over `Rat` with entries `0` and `1`.
-/

set_option autoImplicit false

namespace Cloudify

/-- A filesystem entry: a plain file, or a directory with an ordered list
of children (the order `os.listdir` yields). -/
inductive Entry : Type where
  | file (nm : String)
  | dir (nm : String) (children : List Entry)

/-- The name of an entry. -/
def Entry.name : Entry → String
  | .file n => n
  | .dir n _ => n

/-- `os.path.isdir` on an existing entry. -/
def Entry.isDir : Entry → Bool
  | .file _ => false
  | .dir _ _ => true

/-- Resolve one path component inside a directory listing.  Real
directories have unique entry names, so first match suffices. -/
def findEntry (entries : List Entry) (nm : String) : Option Entry :=
  entries.find? (fun e => e.name == nm)

/-- The `exts` argument of `DataSet.__init__` may be a single Python
string or a tuple of strings (its docstring: "String or tuple of strings
with valid filename-extensions"). -/
inductive StrOrTuple : Type where
  | str (s : String)
  | tup (l : List String)

/-- Python `str.lower()`: character-wise lower-casing (the repository's
names are ASCII, where `Char.toLower` agrees with Python). -/
def strLower (s : String) : String :=
  ⟨s.data.map Char.toLower⟩

/-- Python `s.endswith(p)` for a single suffix: `p` is a suffix of `s`. -/
def strEndsWith (s p : String) : Bool :=
  p.data.isSuffixOf s.data

/-- `tuple(ext.lower() for ext in exts)` from `DataSet.__init__`.
Iterating a Python *string* yields its characters, so a plain string
becomes a tuple of single-character strings; a tuple is lower-cased
element-wise. -/
def StrOrTuple.lowered : StrOrTuple → List String
  | .str s => s.toList.map (fun c => strLower (String.singleton c))
  | .tup l => l.map strLower

/-- `filename.lower().endswith(self.exts)` from `_get_filenames`:
`str.endswith` applied to a tuple is true iff the string ends with any
member of the tuple. -/
def nameMatches (exts : List String) (filename : String) : Bool :=
  exts.any (fun ext => strEndsWith (strLower filename) ext)

/-- The state built by `DataSet.__init__` (`dataset.py`). `in_dir` is the
already-absolute root path (`os.path.abspath` is applied before it is
stored). -/
structure DataSet : Type where
  in_dir : String
  exts : List String
  class_names : List String
  filenames : List String
  filenames_test : List String
  class_numbers : List Nat
  class_numbers_test : List Nat
  num_classes : Nat
deriving Repr, DecidableEq

/-- `DataSet._get_filenames(dir)`.  The argument is the entry resolved at
the scanned path: `none` models `os.path.exists(dir)` being false (the
function then returns `[]`); an existing non-directory makes `os.listdir`
raise `NotADirectoryError`; on a directory, the listing is filtered by
`filename.lower().endswith(self.exts)`, with no check of the entry's
kind. -/
def DataSet.scanFilenames (exts : List String) (e : Option Entry) : Except String (List String) :=
  match e with
  | none => .ok []
  | some (.file _) => .error "NotADirectoryError"
  | some (.dir _ children) =>
    .ok ((children.filter (fun c => nameMatches exts c.name)).map Entry.name)

/-- One iteration of the `for name in os.listdir(in_dir)` loop of
`DataSet.__init__`: non-directories are skipped; a directory becomes the
next class, its listing extends the training split, the listing of its
`test` child extends the test split, and `num_classes` is incremented. -/
def buildStep (ds : DataSet) (e : Entry) : Except String DataSet :=
  match e with
  | .file _ => .ok ds
  | .dir nm children =>
    match DataSet.scanFilenames ds.exts (some (.dir nm children)) with
    | .error msg => .error msg
    | .ok fns =>
      match DataSet.scanFilenames ds.exts (findEntry children "test") with
      | .error msg => .error msg
      | .ok fnsTest =>
        .ok { ds with
          class_names := ds.class_names ++ [nm]
          filenames := ds.filenames ++ fns
          class_numbers := ds.class_numbers ++ List.replicate fns.length ds.num_classes
          filenames_test := ds.filenames_test ++ fnsTest
          class_numbers_test := ds.class_numbers_test ++ List.replicate fnsTest.length ds.num_classes
          num_classes := ds.num_classes + 1 }

/-- The whole `__init__` loop; a raised exception aborts it. -/
def buildLoop : List Entry → DataSet → Except String DataSet
  | [], ds => .ok ds
  | e :: es, ds =>
    match buildStep ds e with
    | .error msg => .error msg
    | .ok ds' => buildLoop es ds'

/-- `DataSet(in_dir, exts)`: `in_dir` is the absolute root path, `root`
its listing (the children of `in_dir`). -/
def DataSet.build (in_dir : String) (exts : StrOrTuple) (root : List Entry) : Except String DataSet :=
  buildLoop root
    { in_dir := in_dir
      exts := exts.lowered
      class_names := []
      filenames := []
      filenames_test := []
      class_numbers := []
      class_numbers_test := []
      num_classes := 0 }

/-- Binary `os.path.join` on POSIX: an absolute second component resets
the path; otherwise a separator is inserted unless the accumulated path
is empty or already ends with one. -/
def osJoin (a b : String) : String :=
  if b.data.headD ' ' = '/' then b
  else if a = "" ∨ a.data.getLastD ' ' = '/' then a ++ b
  else a ++ "/" ++ b

/-- `DataSet.get_paths(test)`: zips the split's filenames with its class
numbers and rebuilds `os.path.join(self.in_dir, self.class_names[cls],
test_dir, filename)` where `test_dir` is `"test/"` for the test split and
`""` otherwise.  Python list indexing raises on an out-of-range class
number; the constructor's invariant (proved below) guarantees the index
is in range, so total `getD` indexing agrees with the source. -/
def DataSet.get_paths (ds : DataSet) (test : Bool) : List String :=
  let filenames := if test then ds.filenames_test else ds.filenames
  let class_numbers := if test then ds.class_numbers_test else ds.class_numbers
  let test_dir := if test then "test/" else ""
  (filenames.zip class_numbers).map
    (fun p => osJoin (osJoin (osJoin ds.in_dir (ds.class_names.getD p.2 "")) test_dir) p.1)

/-- Row `c` of `np.eye(num_classes, dtype=float)`: length `num_classes`,
`1.0` at position `c`, `0.0` elsewhere (defined for `c < num_classes`;
`one_hot_encoded`'s docstring assumes class numbers are in range). -/
def eyeRow (num_classes c : Nat) : List Rat :=
  (List.range num_classes).map (fun j => if j = c then 1 else 0)

/-- `np.max` over a list of naturals (the source applies it only to
nonempty `class_numbers` lists; `np.max` raises on an empty array). -/
def npMax (l : List Nat) : Nat :=
  l.foldl max 0

/-- `np.argmax`: index of the first maximal element. -/
def argmaxAux : List Rat → Nat → Nat → Rat → Nat
  | [], _, best, _ => best
  | x :: xs, i, best, bestV =>
    if bestV < x then argmaxAux xs (i + 1) i x else argmaxAux xs (i + 1) best bestV

/-- `np.argmax` over a row (the source applies it to nonempty rows). -/
def npArgmax : List Rat → Nat
  | [] => 0
  | x :: xs => argmaxAux xs 1 0 x

/-- `one_hot_encoded(class_numbers, num_classes)` from `dataset.py`:
`num_classes` defaults to `np.max(class_numbers) + 1` when `None`, and
the result is `np.eye(num_classes)[class_numbers]`, one row per class
number. -/
def one_hot_encoded (class_numbers : List Nat) (num_classes : Option Nat) : List (List Rat) :=
  let n := match num_classes with
    | none => npMax class_numbers + 1
    | some m => m
  class_numbers.map (eyeRow n)

/-- `DataSet.get_training_set()`: training paths, class numbers
(`np.asarray` preserves the list), and one-hot rows computed with the
index's `num_classes`. -/
def DataSet.get_training_set (ds : DataSet) : List String × List Nat × List (List Rat) :=
  (ds.get_paths false, ds.class_numbers, one_hot_encoded ds.class_numbers (some ds.num_classes))

/-- `DataSet.get_test_set()`: the analogous triple for the test split. -/
def DataSet.get_test_set (ds : DataSet) : List String × List Nat × List (List Rat) :=
  (ds.get_paths true, ds.class_numbers_test, one_hot_encoded ds.class_numbers_test (some ds.num_classes))

/-- The `for src, cls in zip(...)` loop of `_copy_files` inside
`DataSet.copy_files`.  `copyOp src dst` models `shutil.copy(src, dst)`:
`none` on success, `some err` when it raises.  The result pairs the
copies actually attempted (source, destination directory) with the
exception, if any, that aborted the loop: a raised exception propagates
immediately, so entries after the first failure are never attempted. -/
def copyLoop (copyOp : String → String → Option String) (classDirs : List String) :
    List (String × Nat) → List (String × String) × Option String
  | [] => ([], none)
  | (src, cls) :: rest =>
    let dst := classDirs.getD cls ""
    match copyOp src dst with
    | some e => ([(src, dst)], some e)
    | none =>
      let r := copyLoop copyOp classDirs rest
      ((src, dst) :: r.1, r.2)

/-- The `_copy_files` helper of `DataSet.copy_files` for one split:
destination class directories are `os.path.join(dst_dir, class_name +
"/")`, and each (path, class number) pair is copied in order.  Directory
creation (`os.makedirs`) has no bearing on the claims and is not
modelled. -/
def DataSet.copy_files_split (ds : DataSet) (copyOp : String → String → Option String)
    (dst_dir : String) (test : Bool) : List (String × String) × Option String :=
  let class_dirs := ds.class_names.map (fun cn => osJoin dst_dir (cn ++ "/"))
  let class_numbers := if test then ds.class_numbers_test else ds.class_numbers
  copyLoop copyOp class_dirs ((ds.get_paths test).zip class_numbers)

/-- `DataSet.copy_files(train_dir, test_dir)`: copies the training split,
then — only if no exception was raised — the test split.  Returns all
attempted copies and the first exception, if any. -/
def DataSet.copy_files (ds : DataSet) (copyOp : String → String → Option String)
    (train_dir test_dir : String) : List (String × String) × Option String :=
  let rTrain := ds.copy_files_split copyOp train_dir false
  match rTrain.2 with
  | some e => (rTrain.1, some e)
  | none =>
    let rTest := ds.copy_files_split copyOp test_dir true
    (rTrain.1 ++ rTest.1, rTest.2)

/-- A persistent cache, as a mapping from cache paths to stored
`DataSet` values. -/
def CacheStore : Type := List (String × DataSet)

/-- Lookup of a persisted value at a cache path. -/
def cacheGet (store : CacheStore) (path : String) : Option DataSet :=
  (List.find? (fun p => p.1 == path) store).map Prod.snd

/-- Modelled from the spec: the `cache` module (`from cache import cache`
in `dataset.py`) is not under `src/`.  Per the spec's Persistent Cache
contract, `load_or_compute(cache_key, build_fn, build_args)` returns the
deserialized persisted value WITHOUT invoking `build_fn` when one exists
at `cache_key`; otherwise it invokes `build_fn`, persists the exact
result, and returns it.  The persisted representation round-trips
structurally, so deserialization is modelled as returning the stored
value itself. -/
def cache (store : CacheStore) (cache_path : String) (fn : Unit → Except String DataSet) :
    Except String (DataSet × CacheStore) :=
  match cacheGet store cache_path with
  | some ds => .ok (ds, store)
  | none =>
    match fn () with
    | .error msg => .error msg
    | .ok ds => .ok (ds, (cache_path, ds) :: store)

/-- `load_cached(cache_path, in_dir)` from `dataset.py`: delegates to
`cache(cache_path=cache_path, fn=DataSet, in_dir=in_dir)`, so a rebuild
uses `DataSet`'s default `exts='.jpg'`.  `listing` is the directory
listing a rebuild would observe. -/
def load_cached (store : CacheStore) (cache_path in_dir : String) (listing : List Entry) :
    Except String (DataSet × CacheStore) :=
  cache store cache_path (fun _ => DataSet.build in_dir (.str ".jpg") listing)

/-- The `test` child of an entry: `findEntry children "test"` for a
directory, nothing for a plain file. -/
def Entry.testChild : Entry → Option Entry
  | .file _ => none
  | .dir _ children => findEntry children "test"

/-! ### Helper lemmas about the construction loop -/

theorem buildStep_cases (ds ds' : DataSet) (e : Entry) (h : buildStep ds e = .ok ds') :
    ds' = ds ∨
    ∃ nm children fns fnsTest,
      e = Entry.dir nm children ∧
      DataSet.scanFilenames ds.exts (some (.dir nm children)) = .ok fns ∧
      DataSet.scanFilenames ds.exts (findEntry children "test") = .ok fnsTest ∧
      ds' = { ds with
        class_names := ds.class_names ++ [nm]
        filenames := ds.filenames ++ fns
        class_numbers := ds.class_numbers ++ List.replicate fns.length ds.num_classes
        filenames_test := ds.filenames_test ++ fnsTest
        class_numbers_test := ds.class_numbers_test ++ List.replicate fnsTest.length ds.num_classes
        num_classes := ds.num_classes + 1 } := by
  cases e with
  | file nm =>
    simp only [buildStep] at h
    exact Or.inl (Except.ok.inj h).symm
  | dir nm children =>
    simp only [buildStep] at h
    split at h
    · exact absurd h (by simp)
    · next fns hfns =>
      split at h
      · exact absurd h (by simp)
      · next fnsTest hfnsTest =>
        exact Or.inr ⟨nm, children, fns, fnsTest, rfl, hfns, hfnsTest, (Except.ok.inj h).symm⟩

theorem buildLoop_inv (P : DataSet → Prop)
    (hstep : ∀ ds e ds', P ds → buildStep ds e = .ok ds' → P ds') :
    ∀ (root : List Entry) (ds₀ ds : DataSet), P ds₀ → buildLoop root ds₀ = .ok ds → P ds := by
  intro root
  induction root with
  | nil =>
    intro ds₀ ds h hl
    simp only [buildLoop] at hl
    cases hl
    exact h
  | cons e es ih =>
    intro ds₀ ds h hl
    simp only [buildLoop] at hl
    split at hl
    · exact absurd hl (by simp)
    · next ds₁ heq => exact ih ds₁ ds (hstep ds₀ e ds₁ h heq) hl

/-! ### C10 and C4: what the scan accepts -/

/-- C10: for an existing directory, `_get_filenames` includes exactly the
entries whose lower-cased name ends with an accepted extension — the
result is determined by entry names alone, with no check that an entry is
a regular file.  In particular a subdirectory named `x.jpg` inside a
class directory is indexed as a file of that class. -/
theorem claim_C10 (exts : List String) (nm : String) (children : List Entry) :
    DataSet.scanFilenames exts (some (.dir nm children)) =
      .ok ((children.map Entry.name).filter (nameMatches exts)) ∧
    DataSet.scanFilenames [".jpg"] (some (.dir "cls" [.dir "x.jpg" [.file "inner.jpg"]])) =
      .ok ["x.jpg"] := by
  constructor
  · simp only [DataSet.scanFilenames, List.filter_map]
    rfl
  · rfl

/-- C4 (code bug): with the default argument `exts='.jpg'`,
`DataSet.__init__` lower-cases and iterates the *string* `'.jpg'` into the
tuple of single-character suffixes `('.', 'j', 'p', 'g')`, so a file
named `photo.png` (which ends with `'g'`) is accepted even though its
extension is not `.jpg`, contradicting the constructor's own docstring
("The training-set will contain a list of all the *.jpg filenames"). -/
theorem claim_C4 :
    DataSet.build "/d" (.str ".jpg")
        [.dir "clouds" [.file "photo.png", .file "pic.jpg", .file "notes.txt"]] =
      .ok { in_dir := "/d", exts := [".", "j", "p", "g"], class_names := ["clouds"],
            filenames := ["photo.png", "pic.jpg"], filenames_test := [],
            class_numbers := [0, 0], class_numbers_test := [], num_classes := 1 } := by
  rfl

/-! ### C9: the copy loop aborts at the first failure -/

/-- A dataset with one class and two training files, used to exercise
`copy_files`. -/
def ds9 : DataSet :=
  { in_dir := "/d", exts := [".jpg"], class_names := ["a"],
    filenames := ["f1.jpg", "f2.jpg"], filenames_test := [],
    class_numbers := [0, 0], class_numbers_test := [], num_classes := 1 }

/-- C9 counterexample: with two training files and a copy operation that
always fails, `copy_files` attempts only the first copy — the second file
is never attempted and the reported failure is that single error, not an
aggregate collected after attempting every copy. -/
theorem claim_C9_counterexample :
    ds9.filenames.length = 2 ∧
    ds9.copy_files (fun s d => some ("cannot copy " ++ s ++ " to " ++ d)) "/train" "/test" =
      ([("/d/a/f1.jpg", "/train/a/")], some "cannot copy /d/a/f1.jpg to /train/a/") :=
  ⟨rfl, rfl⟩

/-- C9 (amended): per-file copies are attempted in order only up to and
including the first failure; that single exception propagates
immediately, the remaining files are never attempted, and no aggregate
of failures is collected. -/
theorem claim_C9 (copyOp : String → String → Option String) (classDirs : List String)
    (pre post : List (String × Nat)) (q : String × Nat) (e : String)
    (hpre : ∀ r ∈ pre, copyOp r.1 (classDirs.getD r.2 "") = none)
    (hq : copyOp q.1 (classDirs.getD q.2 "") = some e) :
    copyLoop copyOp classDirs (pre ++ q :: post) =
      ((pre ++ [q]).map (fun r => (r.1, classDirs.getD r.2 "")), some e) := by
  induction pre with
  | nil =>
    obtain ⟨src, cls⟩ := q
    simp only [List.nil_append, copyLoop, List.map_cons, List.map_nil]
    rw [hq]
  | cons r rest ih =>
    obtain ⟨src, cls⟩ := r
    have hr : copyOp src (classDirs.getD cls "") = none :=
      hpre (src, cls) (List.mem_cons_self _ _)
    have ih' := ih (fun x hx => hpre x (List.mem_cons_of_mem _ hx))
    simp only [List.cons_append, copyLoop, hr, List.append_eq, ih', List.map_cons]

/-- C9 witness: a concrete run in which the first copy succeeds, the
second fails, and the third is never attempted. -/
theorem claim_C9_witness :
    copyLoop (fun s _ => if s = "s2" then some "disk full" else none) ["/t/a/"]
        ([("s1", 0)] ++ ("s2", 0) :: [("s3", 0)]) =
      (([("s1", (0 : Nat))] ++ [("s2", 0)]).map
          (fun r : String × Nat => (r.1, ["/t/a/"].getD r.2 "")),
        some "disk full") :=
  claim_C9 (fun s _ => if s = "s2" then some "disk full" else none) ["/t/a/"]
    [("s1", 0)] [("s3", 0)] ("s2", 0) "disk full" (by decide) (by decide)

/-! ### C2: one-hot encoding -/

theorem eyeRow_shape (n c : Nat) (h : c < n) :
    eyeRow n c = List.replicate c 0 ++ 1 :: List.replicate (n - c - 1) 0 := by
  induction n with
  | zero => omega
  | succ n ih =>
    rw [eyeRow, List.range_succ, List.map_append]
    rcases Nat.lt_or_ge c n with hc | hc
    · have hne : n ≠ c := by omega
      have hrep : n - c = (n - c - 1) + 1 := by omega
      rw [← eyeRow, ih hc]
      simp only [List.map_cons, List.map_nil, if_neg hne, List.append_assoc, List.cons_append,
        List.nil_append]
      rw [show n + 1 - c - 1 = (n - c - 1) + 1 by omega, List.replicate_succ']
    · have hcn : c = n := by omega
      subst hcn
      have hz : (List.range c).map (fun j => if j = c then (1 : Rat) else 0) =
          List.replicate c 0 := by
        rw [List.map_congr_left (fun j hj => if_neg (Nat.ne_of_lt (List.mem_range.mp hj)))]
        simp [List.map_const']
      simp [hz]

theorem eyeRow_getD (n c i : Nat) (hi : i < n) :
    (eyeRow n c).getD i 0 = if i = c then 1 else 0 := by
  simp [eyeRow, List.getElem?_range hi]

theorem eyeRow_count_one (n c : Nat) (h : c < n) :
    (eyeRow n c).count 1 = 1 := by
  rw [eyeRow_shape n c h]
  simp [List.count_replicate, List.count_cons]

theorem argmaxAux_of_le (l : List Rat) (best : Nat) (bestV : Rat)
    (h : ∀ x ∈ l, x ≤ bestV) : ∀ i, argmaxAux l i best bestV = best := by
  induction l with
  | nil => intro i; rfl
  | cons x xs ih =>
    intro i
    have hx : ¬ bestV < x := not_lt.mpr (h x (List.mem_cons_self _ _))
    rw [argmaxAux, if_neg hx]
    exact ih (fun y hy => h y (List.mem_cons_of_mem _ hy)) (i + 1)

theorem argmaxAux_zeros (m : Nat) : ∀ (k i best : Nat),
    argmaxAux (List.replicate k (0 : Rat) ++ 1 :: List.replicate m 0) i best 0 = i + k := by
  intro k
  induction k with
  | zero =>
    intro i best
    rw [List.replicate, List.nil_append, argmaxAux, if_pos (by norm_num)]
    rw [argmaxAux_of_le _ _ _ (fun x hx => by
      rw [List.eq_of_mem_replicate hx]; norm_num)]
    omega
  | succ k ih =>
    intro i best
    rw [List.replicate_succ, List.cons_append, argmaxAux, if_neg (lt_irrefl 0)]
    rw [ih (i + 1) best]
    omega

theorem npArgmax_eyeRow (n c : Nat) (h : c < n) : npArgmax (eyeRow n c) = c := by
  rw [eyeRow_shape n c h]
  cases c with
  | zero =>
    rw [List.replicate, List.nil_append, npArgmax]
    exact argmaxAux_of_le _ _ _
      (fun x hx => by rw [List.eq_of_mem_replicate hx]; norm_num) 1
  | succ c' =>
    rw [List.replicate_succ, List.cons_append, npArgmax, argmaxAux_zeros]
    omega

/-- C2: for `0 ≤ c < num_classes`, `one_hot_encoded` maps each class
number to its row of `np.eye(num_classes)`; the row for `c` has length
`num_classes`, entry `1.0` at position `c`, entry `0.0` at every other
position, first argmax equal to `c`, and exactly one entry equal to
`1.0`; and when `num_classes` is `None` it defaults to
`max(class_numbers) + 1`. -/
theorem claim_C2 (cs : List Nat) (n c i : Nat)
    (hc : c < n) (hi : i < n) (hic : i ≠ c) (_hcs : cs ≠ []) :
    one_hot_encoded cs (some n) = cs.map (eyeRow n) ∧
    (eyeRow n c).length = n ∧
    (eyeRow n c).getD c 0 = 1 ∧
    (eyeRow n c).getD i 0 = 0 ∧
    npArgmax (eyeRow n c) = c ∧
    (eyeRow n c).count 1 = 1 ∧
    one_hot_encoded cs none = cs.map (eyeRow (npMax cs + 1)) := by
  refine ⟨rfl, by simp [eyeRow], ?_, ?_, npArgmax_eyeRow n c hc, eyeRow_count_one n c hc, rfl⟩
  · rw [eyeRow_getD n c c hc, if_pos rfl]
  · rw [eyeRow_getD n c i hi, if_neg hic]

/-- C2 witness: the docstring example `class_number=2`, `num_classes=4`
gives the row `[0.0, 0.0, 1.0, 0.0]`. -/
theorem claim_C2_witness :
    one_hot_encoded [2] (some 4) = [2].map (eyeRow 4) ∧
    (eyeRow 4 2).length = 4 ∧
    (eyeRow 4 2).getD 2 0 = 1 ∧
    (eyeRow 4 2).getD 0 0 = 0 ∧
    npArgmax (eyeRow 4 2) = 2 ∧
    (eyeRow 4 2).count 1 = 1 ∧
    one_hot_encoded [2] none = [2].map (eyeRow (npMax [2] + 1)) :=
  claim_C2 [2] 4 2 0 (by decide) (by decide) (by decide) (by decide)

/-! ### C8, C3: invariants of the constructed index -/

/-- The structural invariant `DataSet.__init__` maintains: one class name
per class number, parallel filename/class-number lists of equal length,
and every stored class number below `num_classes`. -/
def DataSetInv (ds : DataSet) : Prop :=
  ds.class_names.length = ds.num_classes ∧
  ds.filenames.length = ds.class_numbers.length ∧
  ds.filenames_test.length = ds.class_numbers_test.length ∧
  (∀ c ∈ ds.class_numbers, c < ds.num_classes) ∧
  (∀ c ∈ ds.class_numbers_test, c < ds.num_classes)

theorem buildStep_inv (ds : DataSet) (e : Entry) (ds' : DataSet)
    (h : DataSetInv ds) (hs : buildStep ds e = .ok ds') : DataSetInv ds' := by
  obtain ⟨h1, h2, h3, h4, h5⟩ := h
  rcases buildStep_cases ds ds' e hs with rfl | ⟨nm, children, fns, fnsTest, _, _, _, rfl⟩
  · exact ⟨h1, h2, h3, h4, h5⟩
  · refine ⟨?_, ?_, ?_, ?_, ?_⟩
    · simp [h1]
    · simp [h2]
    · simp [h3]
    · intro c hc
      rcases List.mem_append.mp hc with hc | hc
      · exact Nat.lt_succ_of_lt (h4 c hc)
      · rw [List.eq_of_mem_replicate hc]; exact Nat.lt_succ_self _
    · intro c hc
      rcases List.mem_append.mp hc with hc | hc
      · exact Nat.lt_succ_of_lt (h5 c hc)
      · rw [List.eq_of_mem_replicate hc]; exact Nat.lt_succ_self _

theorem build_inv (in_dir : String) (exts : StrOrTuple) (root : List Entry) (ds : DataSet)
    (h : DataSet.build in_dir exts root = .ok ds) : DataSetInv ds :=
  buildLoop_inv DataSetInv buildStep_inv root _ ds
    ⟨rfl, rfl, rfl, fun _ hc => absurd hc (List.not_mem_nil _), fun _ hc =>
      absurd hc (List.not_mem_nil _)⟩ h

/-- C8: for every constructed `DataSet`, `len(class_names) == num_classes`
and every class number stored for either split is a valid index into
`class_names`. -/
theorem claim_C8 (in_dir : String) (exts : StrOrTuple) (root : List Entry) (ds : DataSet)
    (h : DataSet.build in_dir exts root = .ok ds) :
    ds.class_names.length = ds.num_classes ∧
    (∀ c ∈ ds.class_numbers, c < ds.num_classes) ∧
    (∀ c ∈ ds.class_numbers_test, c < ds.num_classes) := by
  obtain ⟨h1, _, _, h4, h5⟩ := build_inv in_dir exts root ds h
  exact ⟨h1, h4, h5⟩

/-- The directory tree of the spec's worked scenario (without the missing
`test/` directory for the second class, which C7 covers). -/
def sampleTree : List Entry :=
  [.dir "cirrus" [.file "a.jpg", .dir "test" [.file "t.jpg"]],
   .dir "cumulus" [.file "b.jpg"]]

/-- The index `DataSet.__init__` builds from `sampleTree`. -/
def sampleDS : DataSet :=
  { in_dir := "/data", exts := [".jpg"], class_names := ["cirrus", "cumulus"],
    filenames := ["a.jpg", "b.jpg"], filenames_test := ["t.jpg"],
    class_numbers := [0, 1], class_numbers_test := [0], num_classes := 2 }

/-- C8 witness: the invariant at a concrete two-class tree. -/
theorem claim_C8_witness :
    sampleDS.class_names.length = sampleDS.num_classes ∧
    (∀ c ∈ sampleDS.class_numbers, c < sampleDS.num_classes) ∧
    (∀ c ∈ sampleDS.class_numbers_test, c < sampleDS.num_classes) :=
  claim_C8 "/data" (.tup [".jpg"]) sampleTree sampleDS rfl

theorem map_zip_eq_zipWith {α β γ : Type} (f : α × β → γ) (as : List α) (bs : List β) :
    (as.zip bs).map f = List.zipWith (fun a b => f (a, b)) as bs := by
  rw [List.zip_eq_zipWith, List.map_zipWith]

/-- C3: for every constructed `DataSet`, both `get_training_set` and
`get_test_set` return parallel lists of equal length, and each path is
rebuilt from `class_names[class_numbers[i]]` and `filenames[i]` at the
same index — the zipWith form makes the index-for-index correspondence
explicit. -/
theorem claim_C3 (in_dir : String) (exts : StrOrTuple) (root : List Entry) (ds : DataSet)
    (h : DataSet.build in_dir exts root = .ok ds) :
    (ds.get_training_set.1.length = ds.get_training_set.2.1.length ∧
     ds.get_training_set.2.1.length = ds.get_training_set.2.2.length ∧
     ds.get_training_set.1 = List.zipWith
       (fun fn c => osJoin (osJoin (osJoin ds.in_dir (ds.class_names.getD c "")) "") fn)
       ds.filenames ds.class_numbers) ∧
    (ds.get_test_set.1.length = ds.get_test_set.2.1.length ∧
     ds.get_test_set.2.1.length = ds.get_test_set.2.2.length ∧
     ds.get_test_set.1 = List.zipWith
       (fun fn c => osJoin (osJoin (osJoin ds.in_dir (ds.class_names.getD c "")) "test/") fn)
       ds.filenames_test ds.class_numbers_test) := by
  obtain ⟨_, h2, h3, _, _⟩ := build_inv in_dir exts root ds h
  constructor
  · refine ⟨?_, ?_, ?_⟩
    · simp [DataSet.get_training_set, DataSet.get_paths, List.length_zipWith,
        List.zip_eq_zipWith, h2]
    · simp [DataSet.get_training_set, one_hot_encoded]
    · simp only [DataSet.get_training_set, DataSet.get_paths, if_neg (Bool.false_ne_true)]
      exact map_zip_eq_zipWith _ ds.filenames ds.class_numbers
  · refine ⟨?_, ?_, ?_⟩
    · simp [DataSet.get_test_set, DataSet.get_paths, List.length_zipWith,
        List.zip_eq_zipWith, h3]
    · simp [DataSet.get_test_set, one_hot_encoded]
    · simp only [DataSet.get_test_set, DataSet.get_paths, if_pos rfl]
      exact map_zip_eq_zipWith _ ds.filenames_test ds.class_numbers_test

/-- C3 witness: the alignment at a concrete two-class tree. -/
theorem claim_C3_witness :
    (sampleDS.get_training_set.1.length = sampleDS.get_training_set.2.1.length ∧
     sampleDS.get_training_set.2.1.length = sampleDS.get_training_set.2.2.length ∧
     sampleDS.get_training_set.1 = List.zipWith
       (fun fn c => osJoin (osJoin (osJoin sampleDS.in_dir (sampleDS.class_names.getD c "")) "") fn)
       sampleDS.filenames sampleDS.class_numbers) ∧
    (sampleDS.get_test_set.1.length = sampleDS.get_test_set.2.1.length ∧
     sampleDS.get_test_set.2.1.length = sampleDS.get_test_set.2.2.length ∧
     sampleDS.get_test_set.1 = List.zipWith
       (fun fn c => osJoin (osJoin (osJoin sampleDS.in_dir (sampleDS.class_names.getD c "")) "test/") fn)
       sampleDS.filenames_test sampleDS.class_numbers_test) :=
  claim_C3 "/data" (.tup [".jpg"]) sampleTree sampleDS rfl

/-! ### C7: missing directories are tolerated -/

theorem buildLoop_noTest (root : List Entry)
    (hroot : ∀ e ∈ root, e.testChild = none) :
    ∀ ds₀ : DataSet, ds₀.filenames_test = [] → ds₀.class_numbers_test = [] →
    ∃ ds, buildLoop root ds₀ = .ok ds ∧ ds.filenames_test = [] ∧ ds.class_numbers_test = [] := by
  induction root with
  | nil => exact fun ds₀ h1 h2 => ⟨ds₀, rfl, h1, h2⟩
  | cons e es ih =>
    intro ds₀ h1 h2
    cases e with
    | file nm =>
      obtain ⟨ds, hds, ha, hb⟩ := ih (fun x hx => hroot x (List.mem_cons_of_mem _ hx)) ds₀ h1 h2
      exact ⟨ds, by simpa [buildLoop, buildStep] using hds, ha, hb⟩
    | dir nm children =>
      have hfe : findEntry children "test" = none := hroot _ (List.mem_cons_self _ _)
      cases hs : buildStep ds₀ (.dir nm children) with
      | error msg =>
        simp only [buildStep, DataSet.scanFilenames, hfe] at hs
        exact Except.noConfusion hs
      | ok ds₁ =>
        have htest : ds₁.filenames_test = [] ∧ ds₁.class_numbers_test = [] := by
          rcases buildStep_cases ds₀ ds₁ _ hs with rfl | ⟨nm', ch', fns, fnsTest, heq, _, hscan2, hrec⟩
          · exact ⟨h1, h2⟩
          · cases heq
            rw [hfe] at hscan2
            have hT : fnsTest = [] := (Except.ok.inj hscan2).symm
            subst hT hrec
            simp [h1, h2]
        obtain ⟨ds, hds, ha, hb⟩ :=
          ih (fun x hx => hroot x (List.mem_cons_of_mem _ hx)) ds₁ htest.1 htest.2
        refine ⟨ds, ?_, ha, hb⟩
        simp only [buildLoop, hs]
        exact hds

/-- C7: `_get_filenames` on a nonexistent directory returns the empty
list rather than raising, so a class directory with no `test/`
subdirectory contributes zero test records and construction succeeds. -/
theorem claim_C7 (exts : List String) (in_dir : String) (extsArg : StrOrTuple)
    (root : List Entry) (hroot : ∀ e ∈ root, e.testChild = none) :
    DataSet.scanFilenames exts none = .ok [] ∧
    ∃ ds, DataSet.build in_dir extsArg root = .ok ds ∧
      ds.filenames_test = [] ∧ ds.class_numbers_test = [] :=
  ⟨rfl, buildLoop_noTest root hroot _ rfl rfl⟩

/-- C7 witness: a one-class tree whose class directory has no `test`
entry. -/
theorem claim_C7_witness :
    DataSet.scanFilenames [".jpg"] none = .ok [] ∧
    ∃ ds, DataSet.build "/data" (.tup [".jpg"]) [.dir "cumulus" [.file "b.jpg"]] = .ok ds ∧
      ds.filenames_test = [] ∧ ds.class_numbers_test = [] :=
  claim_C7 [".jpg"] "/data" (.tup [".jpg"]) [.dir "cumulus" [.file "b.jpg"]]
    (List.forall_mem_singleton.mpr rfl)

/-! ### C5: class count versus largest assigned class number -/

theorem foldl_max_le (l : List Nat) (m : Nat) :
    ∀ a, a ≤ m → (∀ x ∈ l, x ≤ m) → l.foldl max a ≤ m := by
  induction l with
  | nil => exact fun a ha _ => ha
  | cons x xs ih =>
    intro a ha h
    rw [List.foldl_cons]
    exact ih (max a x) (max_le ha (h x (List.mem_cons_self _ _)))
      (fun y hy => h y (List.mem_cons_of_mem _ hy))

theorem le_foldl_max (l : List Nat) : ∀ a, a ≤ l.foldl max a := by
  induction l with
  | nil => exact fun a => le_refl a
  | cons x xs ih =>
    intro a
    rw [List.foldl_cons]
    exact le_trans (le_max_left a x) (ih (max a x))

theorem mem_le_foldl_max (l : List Nat) : ∀ x ∈ l, ∀ a, x ≤ l.foldl max a := by
  induction l with
  | nil => intro x hx; cases hx
  | cons y ys ih =>
    intro x hx a
    rw [List.foldl_cons]
    rcases List.mem_cons.mp hx with rfl | hx'
    · exact le_trans (le_max_right a x) (le_foldl_max ys (max a x))
    · exact ih x hx' (max a y)

theorem foldl_max_mem (l : List Nat) : ∀ a, l.foldl max a = a ∨ l.foldl max a ∈ l := by
  induction l with
  | nil => exact fun a => Or.inl rfl
  | cons x xs ih =>
    intro a
    rw [List.foldl_cons]
    rcases ih (max a x) with h | h
    · rcases max_choice a x with hm | hm
      · exact Or.inl (h.trans hm)
      · rw [h, hm]; exact Or.inr (List.mem_cons_self _ _)
    · exact Or.inr (List.mem_cons_of_mem _ h)

/-- C5 counterexample: a root whose first class has one matching file and
whose second (last discovered) class is empty.  The build succeeds with
at least one file indexed, yet `num_classes = 2` while
`1 + max(class_numbers ∪ class_numbers_test) = 1`. -/
theorem claim_C5_counterexample :
    DataSet.build "/data" (.tup [".jpg"]) [.dir "a" [.file "x.jpg"], .dir "b" []] =
      .ok { in_dir := "/data", exts := [".jpg"], class_names := ["a", "b"],
            filenames := ["x.jpg"], filenames_test := [], class_numbers := [0],
            class_numbers_test := [], num_classes := 2 } ∧
    npMax ([0] ++ ([] : List Nat)) + 1 ≠ 2 :=
  ⟨rfl, by decide⟩

/-- C5 (amended): for every constructed `DataSet` with at least one
matching file, `len(class_names) = num_classes` and
`1 + max(class_numbers ∪ class_numbers_test) ≤ num_classes`; the equality
claimed by the spec holds under the additional assumption that every
discovered class contributes at least one file to some split (it fails
when a trailing class is empty, as the counterexample shows). -/
theorem claim_C5 (in_dir : String) (exts : StrOrTuple) (root : List Entry) (ds : DataSet)
    (h : DataSet.build in_dir exts root = .ok ds)
    (hfile : ds.filenames ≠ [] ∨ ds.filenames_test ≠ []) :
    ds.class_names.length = ds.num_classes ∧
    npMax (ds.class_numbers ++ ds.class_numbers_test) + 1 ≤ ds.num_classes ∧
    ((∀ k, k < ds.num_classes → (k ∈ ds.class_numbers ∨ k ∈ ds.class_numbers_test)) →
      npMax (ds.class_numbers ++ ds.class_numbers_test) + 1 = ds.num_classes) := by
  obtain ⟨h1, h2, h3, h4, h5⟩ := build_inv in_dir exts root ds h
  have hbound : ∀ x ∈ ds.class_numbers ++ ds.class_numbers_test, x < ds.num_classes := by
    intro x hx
    rcases List.mem_append.mp hx with hx | hx
    exacts [h4 x hx, h5 x hx]
  have hne : ds.class_numbers ++ ds.class_numbers_test ≠ [] := by
    intro hc
    rcases List.append_eq_nil.mp hc with ⟨hc1, hc2⟩
    rcases hfile with hf | hf
    · exact hf (List.length_eq_zero.mp (by rw [h2, hc1]; rfl))
    · exact hf (List.length_eq_zero.mp (by rw [h3, hc2]; rfl))
  obtain ⟨x, hxmem⟩ := List.exists_mem_of_ne_nil _ hne
  have hpos : 0 < ds.num_classes := Nat.lt_of_le_of_lt (Nat.zero_le x) (hbound x hxmem)
  refine ⟨h1, ?_, ?_⟩
  · rcases foldl_max_mem (ds.class_numbers ++ ds.class_numbers_test) 0 with h0 | hmem
    · rw [npMax, h0]; omega
    · exact Nat.succ_le_of_lt (hbound _ hmem)
  · intro hcover
    have hlast : ds.num_classes - 1 ∈ ds.class_numbers ++ ds.class_numbers_test := by
      rcases hcover (ds.num_classes - 1) (by omega) with hm | hm
      · exact List.mem_append_left _ hm
      · exact List.mem_append_right _ hm
    have hle : ds.num_classes - 1 ≤ npMax (ds.class_numbers ++ ds.class_numbers_test) :=
      mem_le_foldl_max _ _ hlast 0
    have hge : npMax (ds.class_numbers ++ ds.class_numbers_test) ≤ ds.num_classes - 1 :=
      foldl_max_le _ _ 0 (by omega) (fun y hy => by have := hbound y hy; omega)
    omega

/-- C5 witness: the amended statement at a concrete two-class tree in
which every class has a file. -/
theorem claim_C5_witness :
    sampleDS.class_names.length = sampleDS.num_classes ∧
    npMax (sampleDS.class_numbers ++ sampleDS.class_numbers_test) + 1 ≤ sampleDS.num_classes ∧
    ((∀ k, k < sampleDS.num_classes →
        (k ∈ sampleDS.class_numbers ∨ k ∈ sampleDS.class_numbers_test)) →
      npMax (sampleDS.class_numbers ++ sampleDS.class_numbers_test) + 1 = sampleDS.num_classes) :=
  claim_C5 "/data" (.tup [".jpg"]) sampleTree sampleDS rfl (Or.inl (by decide))

/-! ### C6: exact path reconstruction -/

theorem osJoin_sep (a b : String) (hb : b.data.headD ' ' ≠ '/')
    (ha : a ≠ "") (ha2 : a.data.getLastD ' ' ≠ '/') :
    osJoin a b = a ++ "/" ++ b := by
  rw [osJoin, if_neg hb, if_neg (not_or.mpr ⟨ha, ha2⟩)]

theorem osJoin_after_sep (a b : String) (hb : b.data.headD ' ' ≠ '/')
    (ha : a.data.getLastD ' ' = '/') :
    osJoin a b = a ++ b := by
  rw [osJoin, if_neg hb, if_pos (Or.inr ha)]

theorem getLastD_append_right (l₁ l₂ : List Char) (d : Char) (h : l₂ ≠ []) :
    (l₁ ++ l₂).getLastD d = l₂.getLastD d := by
  rw [List.getLastD_eq_getLast?, List.getLastD_eq_getLast?, List.getLast?_append]
  cases hl : l₂.getLast? with
  | none => exact absurd (List.getLast?_eq_none_iff.mp hl) h
  | some x => rfl

theorem getLastD_append_sep (l₁ l₂ : List Char) :
    ((l₁ ++ ['/']) ++ l₂).getLastD ' ' = l₂.getLastD '/' := by
  cases l₂ with
  | nil => simp [List.getLastD_concat]
  | cons x xs =>
    rw [getLastD_append_right _ _ _ (by simp), List.getLastD_eq_getLast?,
      List.getLastD_eq_getLast?]
    cases hl : (x :: xs).getLast? with
    | none => exact absurd (List.getLast?_eq_none_iff.mp hl) (by simp)
    | some y => rfl

theorem slash_data : ("/" : String).data = ['/'] := rfl

theorem osJoin_reconstruct (a cn t fn : String)
    (ha : a ≠ "") (ha2 : a.data.getLastD ' ' ≠ '/')
    (hcn0 : cn ≠ "") (hcn1 : cn.data.headD ' ' ≠ '/') (hcn2 : cn.data.getLastD ' ' ≠ '/')
    (ht : t.data.headD ' ' ≠ '/') (ht2 : t.data.getLastD '/' = '/')
    (hfn : fn.data.headD ' ' ≠ '/') :
    osJoin (osJoin (osJoin a cn) t) fn = a ++ "/" ++ cn ++ "/" ++ t ++ fn := by
  have hcnd : cn.data ≠ [] := fun hc => hcn0 (String.ext hc)
  have h1 : osJoin a cn = a ++ "/" ++ cn := osJoin_sep a cn hcn1 ha ha2
  have ha' : (a ++ "/" ++ cn) ≠ "" := by
    intro hc
    have hd := congrArg String.data hc
    simp only [String.data_append, slash_data] at hd
    simp at hd
  have ha2' : (a ++ "/" ++ cn).data.getLastD ' ' ≠ '/' := by
    simp only [String.data_append]
    rw [getLastD_append_right _ _ _ hcnd]
    exact hcn2
  have h2 : osJoin (a ++ "/" ++ cn) t = a ++ "/" ++ cn ++ "/" ++ t :=
    osJoin_sep _ t ht ha' ha2'
  have h3 : (a ++ "/" ++ cn ++ "/" ++ t).data.getLastD ' ' = '/' := by
    simp only [String.data_append, slash_data]
    rw [show a.data ++ ['/'] ++ cn.data ++ ['/'] ++ t.data =
        ((a.data ++ ['/'] ++ cn.data) ++ ['/']) ++ t.data by simp [List.append_assoc]]
    rw [getLastD_append_sep]
    exact ht2
  rw [h1, h2, osJoin_after_sep _ fn hfn h3]

/-- C6: every path yielded by `get_paths` is rebuilt exactly as
`root/class_name/filename` (training) or `root/class_name/test/filename`
(test), using the very `class_names` string recorded at discovery time,
with no renaming or sanitization.  The hypotheses state what is true of
real `os.listdir` names (nonempty, no path separator at either end) and
of the absolute root (nonempty, no trailing separator), plus the
constructor's index invariant. -/
theorem claim_C6 (ds : DataSet)
    (hroot : ds.in_dir ≠ "") (hroot2 : ds.in_dir.data.getLastD ' ' ≠ '/')
    (hcls : ∀ cn ∈ ds.class_names,
      cn ≠ "" ∧ cn.data.headD ' ' ≠ '/' ∧ cn.data.getLastD ' ' ≠ '/')
    (hbound : ∀ c ∈ ds.class_numbers, c < ds.class_names.length)
    (hboundT : ∀ c ∈ ds.class_numbers_test, c < ds.class_names.length)
    (hfn : ∀ fn ∈ ds.filenames, fn.data.headD ' ' ≠ '/')
    (hfnT : ∀ fn ∈ ds.filenames_test, fn.data.headD ' ' ≠ '/') :
    ds.get_paths false = (ds.filenames.zip ds.class_numbers).map
      (fun p => ds.in_dir ++ "/" ++ ds.class_names.getD p.2 "" ++ "/" ++ p.1) ∧
    ds.get_paths true = (ds.filenames_test.zip ds.class_numbers_test).map
      (fun p => ds.in_dir ++ "/" ++ ds.class_names.getD p.2 "" ++ "/test/" ++ p.1) := by
  constructor
  · simp only [DataSet.get_paths, Bool.false_eq_true, if_false]
    apply List.map_congr_left
    intro p hp
    obtain ⟨fn, c⟩ := p
    obtain ⟨hpf, hpc⟩ := List.of_mem_zip hp
    have hc : c < ds.class_names.length := hbound c hpc
    have hmem : ds.class_names.getD c "" ∈ ds.class_names := by
      rw [List.getD_eq_getElem _ _ hc]
      exact List.getElem_mem hc
    obtain ⟨hcn0, hcn1, hcn2⟩ := hcls _ hmem
    rw [osJoin_reconstruct ds.in_dir _ "" fn hroot hroot2 hcn0 hcn1 hcn2
      (by decide) rfl (hfn fn hpf)]
    rw [String.append_empty]
  · simp only [DataSet.get_paths, if_true]
    apply List.map_congr_left
    intro p hp
    obtain ⟨fn, c⟩ := p
    obtain ⟨hpf, hpc⟩ := List.of_mem_zip hp
    have hc : c < ds.class_names.length := hboundT c hpc
    have hmem : ds.class_names.getD c "" ∈ ds.class_names := by
      rw [List.getD_eq_getElem _ _ hc]
      exact List.getElem_mem hc
    obtain ⟨hcn0, hcn1, hcn2⟩ := hcls _ hmem
    rw [osJoin_reconstruct ds.in_dir _ "test/" fn hroot hroot2 hcn0 hcn1 hcn2
      (by decide) rfl (hfnT fn hpf)]
    rw [String.append_assoc _ "/" "test/"]
    rfl

/-- C6 witness: path reconstruction at a concrete two-class index. -/
theorem claim_C6_witness :
    sampleDS.get_paths false = (sampleDS.filenames.zip sampleDS.class_numbers).map
      (fun p => sampleDS.in_dir ++ "/" ++ sampleDS.class_names.getD p.2 "" ++ "/" ++ p.1) ∧
    sampleDS.get_paths true = (sampleDS.filenames_test.zip sampleDS.class_numbers_test).map
      (fun p => sampleDS.in_dir ++ "/" ++ sampleDS.class_names.getD p.2 "" ++ "/test/" ++ p.1) :=
  claim_C6 sampleDS (by decide) (by decide) (by decide) (by decide) (by decide)
    (by decide) (by decide)

/-! ### C1: cache hit returns the persisted index without re-scanning -/

/-- C1: if a first `load_cached` call succeeded (hit or miss), a second
call with the same `cache_path` returns the very same `DataSet` and
store, for *any* directory listing the second call would observe — the
builder is not invoked, so no re-scan happens — and therefore the
(paths, class_numbers, one_hot) tuples of the second call are identical
to the first call's. -/
theorem claim_C1 (store : CacheStore) (cache_path in_dir : String)
    (listing relisting : List Entry) (ds : DataSet) (store' : CacheStore)
    (h : load_cached store cache_path in_dir listing = .ok (ds, store')) :
    load_cached store' cache_path in_dir relisting = .ok (ds, store') ∧
    (load_cached store' cache_path in_dir relisting).map
        (fun p => (p.1.get_training_set, p.1.get_test_set)) =
      .ok (ds.get_training_set, ds.get_test_set) := by
  have hget : cacheGet store' cache_path = some ds := by
    rw [load_cached, cache] at h
    cases hg : cacheGet store cache_path with
    | some d =>
      rw [hg] at h
      obtain ⟨hd, hst⟩ := Prod.mk.injEq .. ▸ (Except.ok.inj h)
      rw [← hst, hg, hd]
    | none =>
      rw [hg] at h
      cases hb : DataSet.build in_dir (.str ".jpg") listing with
      | error msg => rw [hb] at h; exact Except.noConfusion h
      | ok d =>
        rw [hb] at h
        obtain ⟨hd, hst⟩ := Prod.mk.injEq .. ▸ (Except.ok.inj h)
        rw [← hst, cacheGet, List.find?]
        simp [hd]
  have hsecond : load_cached store' cache_path in_dir relisting = .ok (ds, store') := by
    rw [load_cached, cache, hget]
  refine ⟨hsecond, ?_⟩
  rw [hsecond]
  rfl

/-- The index the first `load_cached` call builds from a one-class
listing with the default `'.jpg'` extension argument. -/
def cachedDS : DataSet :=
  { in_dir := "/d", exts := [".", "j", "p", "g"], class_names := ["cirrus"],
    filenames := ["a.jpg"], filenames_test := [], class_numbers := [0],
    class_numbers_test := [], num_classes := 1 }

/-- The store after the first `load_cached` call persisted `cachedDS`. -/
def cachedStore : CacheStore :=
  [("/cp", cachedDS)]

/-- C1 witness: a first call on an empty store builds and persists the
index; the second call — even observing an *empty* directory listing —
returns the identical index and identical training/test tuples. -/
theorem claim_C1_witness :
    load_cached cachedStore "/cp" "/d" [] = .ok (cachedDS, cachedStore) ∧
    (load_cached cachedStore "/cp" "/d" []).map
        (fun p => (p.1.get_training_set, p.1.get_test_set)) =
      .ok (cachedDS.get_training_set, cachedDS.get_test_set) :=
  claim_C1 [] "/cp" "/d" [.dir "cirrus" [.file "a.jpg"]] [] cachedDS cachedStore rfl

end Cloudify
